import Mathlib

/-!
Shallow embedding of the retrieval-orchestration route handler
(`app/api/prof-query/route.ts`) of the `tum_prof` repository, together with
theorems settling the specification claims about it.

Modelling conventions:
* JavaScript strings are Lean `String`s; the JS falsy-or idiom `a || b` on
  strings (where `undefined`/`null`/`""` fall through) is `jsOr`.
* Optional JS object fields are `Option String`; an absent `metadata` object
  behaves exactly like a metadata object with every field absent, so
  `metadata` is modelled as a record of optional fields.
* The outbound collaborators (OpenAI chat, OpenAI embeddings, Pinecone query)
  are oracles collected in an `Env`; a throwing call is `Except.error`, a
  possibly-absent response field is `Option`.
* The handler `POST` returns its response together with a `Trace` recording
  every outbound call it made, in order, so that call-count claims are
  statable.
-/

/-- JS `a || b` for an optional string field: `undefined`, `null` and `""`
are falsy and fall through to `b`. -/
def jsOr (a : Option String) (b : String) : String :=
  match a with
  | some s => if s = "" then b else s
  | none => b

/-- JS `Boolean(x)` filter on an optional string: `""` and absence are
discarded (models `.filter(Boolean)` over `m?.metadata?.doc_id`). -/
def truthy (a : Option String) : Option String :=
  match a with
  | some s => if s = "" then none else some s
  | none => none

/-- Worker for the regex replacement `text.replace(/\s+/g, " ")`; the flag
says whether the previous character was part of a whitespace run already
emitted as a single space. -/
def collapseWsAux : Bool → List Char → List Char
  | _, [] => []
  | inRun, c :: cs =>
    if c.isWhitespace then
      if inRun then collapseWsAux true cs
      else ' ' :: collapseWsAux true cs
    else c :: collapseWsAux false cs

/-- `text.replace(/\s+/g, " ")`: each maximal run of whitespace becomes a
single space. -/
def collapseWs (l : List Char) : List Char := collapseWsAux false l

/-- JS `String.prototype.trim`: strip whitespace from both ends. -/
def trimChars (l : List Char) : List Char :=
  ((l.dropWhile Char.isWhitespace).reverse.dropWhile Char.isWhitespace).reverse

/-- JS `s.trim()` on a Lean string. -/
def jsTrim (s : String) : String := ⟨trimChars s.data⟩

/-- `(text || "").replace(/\s+/g, " ").trim()` — the `clean` value inside
`shorten`. -/
def cleanText (s : String) : String := ⟨trimChars (collapseWs s.data)⟩

/-- `shorten(text, max = 220)` from the route: whitespace-collapse and trim,
return unchanged if within `max`, otherwise cut to `max - 3` characters and
append `"..."`. -/
def shorten (text : String) (max : Nat := 220) : String :=
  let clean := cleanText text
  if clean.length ≤ max then clean
  else ⟨clean.data.take (max - 3) ++ ['.', '.', '.']⟩

/-- Sanity check of the whitespace model. -/
theorem cleanText_example : cleanText "  a   b  " = "a b" := by decide

/-- Sanity check of the trim model. -/
theorem jsTrim_example : jsTrim "  x " = "x" := by decide

/-- Sanity check of `shorten` within the cap. -/
theorem shorten_example : shorten "hello   world" = "hello world" := by decide

/-- Chat roles of `ChatMsg` (`"user" | "assistant" | "system"`). -/
inductive Role where
  | user
  | assistant
  | system
deriving DecidableEq, Repr

/-- `ChatMsg = { role, content }`. -/
structure ChatMsg where
  role : Role
  content : String
deriving DecidableEq, Repr

/-- The metadata object attached to a Pinecone match. Every field the route
reads is optional; an entirely absent `metadata` (`m.metadata || {}`)
behaves like the record with every field `none`. -/
structure Metadata where
  professor : Option String := none
  professorName : Option String := none
  source_url : Option String := none
  url : Option String := none
  chunk_block : Option String := none
  chunkBlock : Option String := none
  text : Option String := none
  doc_id : Option String := none
deriving DecidableEq, Repr

/-- A Pinecone match as the route consumes it: `score` and `_score` are
nullish-coalesced (`m.score ?? m._score ?? 0`), `metadata` as above.
Scores are only copied, never computed with, so an integer carrier is
adequate. -/
structure PMatch where
  score : Option Int := none
  scoreAlt : Option Int := none
  metadata : Metadata := {}
deriving DecidableEq, Repr

/-- `MatchForClient = { score, professor, url, chunkBlock, snippet }`. -/
structure MatchForClient where
  score : Int
  professor : String
  url : String
  chunkBlock : String
  snippet : String
deriving DecidableEq, Repr

/-- The element-wise body of `matchesToClient`. -/
def toClient (m : PMatch) : MatchForClient :=
  let md := m.metadata
  { score := (m.score.orElse fun _ => m.scoreAlt).getD 0
    professor := jsOr md.professor (jsOr md.professorName "(unknown)")
    url := jsOr md.source_url (jsOr md.url "")
    chunkBlock := jsOr md.chunk_block (jsOr md.chunkBlock "")
    snippet := shorten (jsOr md.text "") }

/-- `matchesToClient(matches)`: map every match to its client shape,
preserving order. -/
def matchesToClient (ms : List PMatch) : List MatchForClient :=
  ms.map toClient

/-- One record of `buildContext`: header line `[#i+1] Professor: …`,
optional `Section:` and `Source:` lines, then the passage text, joined by
newlines. The literal `""` element of the JS array is removed by
`.filter(Boolean)` (empty string is falsy), as is an empty `text`. -/
def buildRecord (m : PMatch) (i : Nat) : String :=
  let md := m.metadata
  let professor := jsOr md.professor (jsOr md.professorName "Unknown")
  let url := jsOr md.source_url (jsOr md.url "")
  let block := jsOr md.chunk_block ""
  let text := jsOr md.text ""
  String.intercalate "\n"
    ([s!"[#{i + 1}] Professor: {professor}"]
      ++ (if block = "" then [] else [s!"Section: {block}"])
      ++ (if url = "" then [] else [s!"Source: {url}"])
      ++ (if text = "" then [] else [text]))

/-- The per-record list built by `buildContext`'s `.map((m, i) => …)`,
starting at index `i`. -/
def buildRecordsFrom (i : Nat) : List PMatch → List String
  | [] => []
  | m :: ms => buildRecord m i :: buildRecordsFrom (i + 1) ms

/-- The ordered record list of `buildContext`. -/
def buildContextRecords (ms : List PMatch) : List String :=
  buildRecordsFrom 0 ms

/-- `buildContext(matches)`: the records joined by the `---` delimiter. -/
def buildContext (ms : List PMatch) : String :=
  String.intercalate "\n\n---\n\n" (buildContextRecords ms)

/-- The `chunk_block` value the Passage Selector reads
(`m?.metadata?.chunk_block || ""`). -/
def blockOf (m : PMatch) : String := jsOr m.metadata.chunk_block ""

/-- Pass 1 of the selector loop over `chunkMatches`: stop at 8 picked;
accept a candidate when its block is empty or not yet in `seenBlocks`
(`if (!block || !seenBlocks.has(block))`), recording non-empty blocks. -/
def pass1 : List PMatch → List PMatch → List String → List PMatch × List String
  | [], picked, seen => (picked, seen)
  | m :: ms, picked, seen =>
    if 8 ≤ picked.length then (picked, seen)
    else if blockOf m = "" ∨ blockOf m ∉ seen then
      pass1 ms (picked ++ [m]) (if blockOf m = "" then seen else seen ++ [blockOf m])
    else pass1 ms picked seen

/-- Pass 2 of the selector loop: accept any candidate not already picked
(`if (!picked.includes(m))`) until 8 are picked. Membership models JS
reference equality, faithful when the input holds pairwise-distinct
objects. -/
def pass2 : List PMatch → List PMatch → List PMatch
  | [], picked => picked
  | m :: ms, picked =>
    if 8 ≤ picked.length then picked
    else if m ∈ picked then pass2 ms picked
    else pass2 ms (picked ++ [m])

/-- The full "pick up to 8 chunks; prefer diverse sections" selector. -/
def pickDiverse (chunkMatches : List PMatch) : List PMatch :=
  pass2 chunkMatches (pass1 chunkMatches [] []).1

/-- Worker for `setDedup`. -/
def setDedupGo (acc : List String) : List String → List String
  | [] => acc
  | s :: rest => if s ∈ acc then setDedupGo acc rest else setDedupGo (acc ++ [s]) rest

/-- `Array.from(new Set(l))`: remove duplicates keeping first occurrences
in insertion order. -/
def setDedup (l : List String) : List String := setDedupGo [] l

/-- `docIds`: the truthy `doc_id`s of the summary matches, deduplicated. -/
def routedDocIds (summaryMatches : List PMatch) : List String :=
  setDedup (summaryMatches.filterMap fun m => truthy m.metadata.doc_id)

/-- The metadata filter of a Pinecone query as the route builds it. -/
inductive PFilter where
  /-- `{ kind: "profile_summary" }` -/
  | summary
  /-- `{ kind: "profile_chunk", doc_id: { $in: docIds } }` -/
  | chunkIn (docIds : List String)
  /-- `{ kind: "profile_chunk" }` -/
  | chunkAll
deriving DecidableEq, Repr

/-- The arguments of one `pineconeQuery` call. -/
structure QueryCall where
  vector : List Int
  topK : Nat
  filter : PFilter
deriving DecidableEq, Repr

/-- The `doc_id`-scoped chunk filter (`chunkFilter` in the route). -/
def chunkFilterOf (docIds : List String) : PFilter :=
  if 0 < docIds.length then PFilter.chunkIn docIds else PFilter.chunkAll

/-- A record of every outbound call the handler made, in order. -/
structure Trace where
  rewriteCalls : Nat
  embedCalls : List String
  searchCalls : List QueryCall
  generateCalls : List (String × String)
deriving DecidableEq, Repr

/-- The trace before any outbound call. -/
def Trace.empty : Trace := ⟨0, [], [], []⟩

/-- The external collaborators, as oracles. `Except.error` is a throwing
call; inner `Option`s model possibly-absent response fields
(`choices[0]?.message?.content`, `res?.matches`). -/
structure Env where
  rewriteLLM : List ChatMsg → Except String (Option String)
  embed : String → Except String (List Int)
  search : QueryCall → Except String (Option (List PMatch))
  genLLM : String → String → Except String (Option String)

/-- `messages.slice(-12)`: the history window sent to the rewriter. -/
def historyWindow (messages : List ChatMsg) : List ChatMsg :=
  messages.drop (messages.length - 12)

/-- `content?.trim()` chained into `|| fallback`: the trimmed LLM text, or
`""` when the content is absent or trims to empty. -/
def llmText (c : Option String) : String :=
  match c with
  | some s => jsTrim s
  | none => ""

/-- `rewriteToStandalone(messages)`: one chat call on the last 12 turns;
the result is the trimmed completion text, falling back to the verbatim
last message content when the completion is empty or absent. A throwing
chat call propagates (there is no try/catch in this function). -/
def rewriteToStandalone (env : Env) (messages : List ChatMsg) : Except String String :=
  match env.rewriteLLM (historyWindow messages) with
  | .error e => .error e
  | .ok c =>
    let t := llmText c
    let fb := match messages.getLast? with
      | some m => m.content
      | none => ""
    .ok (if t = "" then fb else t)

/-- `askLLM(finalQuestion, context)`: one chat call; the answer is the
trimmed completion text or `""` when absent/empty. A throwing call
propagates. -/
def askLLM (env : Env) (finalQuestion : String) (context : String) : Except String String :=
  match env.genLLM finalQuestion context with
  | .error e => .error e
  | .ok c => .ok (llmText c)

/-- Stage B retrieval plus the broadening fallback, returning the final
chunk list (or the thrown error) together with the search calls issued.
`broadenRes?.matches || chunkMatches` keeps the scoped result only when the
broadened response has no `matches` field (an empty array is truthy). -/
def retrieveChunks (env : Env) (qVec : List Int) (docIds : List String) :
    Except String (List PMatch) × List QueryCall :=
  let cCall : QueryCall := ⟨qVec, 12, chunkFilterOf docIds⟩
  match env.search cCall with
  | .error e => (.error e, [cCall])
  | .ok cres =>
    let chunkMatches := cres.getD []
    if 0 < docIds.length ∧ chunkMatches.length < 3 then
      let bCall : QueryCall := ⟨qVec, 12, PFilter.chunkAll⟩
      match env.search bCall with
      | .error e => (.error e, [cCall, bCall])
      | .ok bres =>
        (.ok (match bres with | some l => l | none => chunkMatches), [cCall, bCall])
    else (.ok chunkMatches, [cCall])

/-- The fixed "nothing found" answer of the empty-result response. -/
def noInfoMessage : String :=
  "I could not find relevant information in the indexed professor profiles for that question."

/-- The HTTP response of the handler: a success JSON body
`{answer, matches, rewrittenQuestion}` (status 200) or an error JSON body
`{error}` with its status code. -/
inductive Response where
  | ok (answer : String) (matchList : List MatchForClient) (rewrittenQuestion : String)
  | error (msg : String) (status : Nat)
deriving DecidableEq, Repr

/-- Tail of the handler after the final chunk list is fixed: empty-result
short circuit, selection, context assembly, generation, response. -/
def finishRequest (env : Env) (rewrittenQuestion : String) (chunkMatches : List PMatch)
    (t : Trace) : Response × Trace :=
  if chunkMatches.length = 0 then
    (.ok noInfoMessage [] rewrittenQuestion, t)
  else
    let picked := pickDiverse chunkMatches
    let context := buildContext picked
    let t' := { t with generateCalls := t.generateCalls ++ [(rewrittenQuestion, context)] }
    match askLLM env rewrittenQuestion context with
    | .error e => (.error e 500, t')
    | .ok answer => (.ok answer (matchesToClient picked) rewrittenQuestion, t')

/-- The pipeline inside the `try` block, after input validation has
passed: rewrite, embed, Stage A routing, Stage B retrieval with
broadening, selection, assembly, generation. Any throwing call lands in
the outer catch and becomes an `{error}` response with status 500. -/
def runPipeline (env : Env) (messages : List ChatMsg) : Response × Trace :=
  let t1 : Trace := { Trace.empty with rewriteCalls := 1 }
  match rewriteToStandalone env messages with
  | .error e => (.error e 500, t1)
  | .ok rewrittenQuestion =>
    let t2 := { t1 with embedCalls := [rewrittenQuestion] }
    match env.embed rewrittenQuestion with
    | .error e => (.error e 500, t2)
    | .ok qVec =>
      let sumCall : QueryCall := ⟨qVec, 3, PFilter.summary⟩
      let t3 := { t2 with searchCalls := [sumCall] }
      match env.search sumCall with
      | .error e => (.error e 500, t3)
      | .ok sres =>
        let docIds := routedDocIds (sres.getD [])
        let retrieved := retrieveChunks env qVec docIds
        let t4 := { t3 with searchCalls := [sumCall] ++ retrieved.2 }
        match retrieved.1 with
        | .error e => (.error e 500, t4)
        | .ok chunkMatches => finishRequest env rewrittenQuestion chunkMatches t4

/-- The `POST` handler. `body = none` models a request body whose
`messages` is missing or not an array. -/
def POST (env : Env) (body : Option (List ChatMsg)) : Response × Trace :=
  match body with
  | none => (.error "Missing or invalid \"messages\" array in body" 400, Trace.empty)
  | some messages =>
    if messages.length = 0 then
      (.error "Missing or invalid \"messages\" array in body" 400, Trace.empty)
    else
      match messages.getLast? with
      | none =>
        (.error "The last message must be a user message with non-empty \"content\"." 400,
          Trace.empty)
      | some last =>
        if last.role ≠ Role.user ∨ jsTrim last.content = "" then
          (.error "The last message must be a user message with non-empty \"content\"." 400,
            Trace.empty)
        else runPipeline env messages

/-! ### Lemmas about the Passage Selector -/

/-- Pass 1 only appends to the accumulator. -/
theorem pass1_extends (ms : List PMatch) :
    ∀ picked seen, ∃ extra, (pass1 ms picked seen).1 = picked ++ extra := by
  induction ms with
  | nil => exact fun picked seen => ⟨[], by simp [pass1]⟩
  | cons m ms ih =>
    intro picked seen
    simp only [pass1]
    split
    · exact ⟨[], by simp⟩
    · split
      · obtain ⟨e, he⟩ := ih (picked ++ [m])
          (if blockOf m = "" then seen else seen ++ [blockOf m])
        exact ⟨m :: e, by rw [he]; simp⟩
      · exact ih picked seen
  
/-- Pass 1 never grows the pick list beyond 8. -/
theorem pass1_length_le (ms : List PMatch) :
    ∀ picked seen, picked.length ≤ 8 → ((pass1 ms picked seen).1).length ≤ 8 := by
  induction ms with
  | nil => intro picked seen h; simpa [pass1] using h
  | cons m ms ih =>
    intro picked seen h
    simp only [pass1]
    split
    · exact h
    · rename_i hlt
      split
      · exact ih _ _ (by simp; omega)
      · exact ih _ _ h

/-- Pass 2 never grows the pick list beyond 8. -/
theorem pass2_length_le (ms : List PMatch) :
    ∀ picked, picked.length ≤ 8 → (pass2 ms picked).length ≤ 8 := by
  induction ms with
  | nil => intro picked h; simpa [pass2] using h
  | cons m ms ih =>
    intro picked h
    simp only [pass2]
    split
    · exact h
    · rename_i hlt
      split
      · exact ih _ h
      · exact ih _ (by simp; omega)

/-- Pass 1 keeps the pick list duplicate-free when fed a duplicate-free
candidate list disjoint from the accumulator. -/
theorem pass1_nodup (ms : List PMatch) :
    ∀ picked seen, picked.Nodup → ms.Nodup → (∀ x ∈ ms, x ∉ picked) →
      ((pass1 ms picked seen).1).Nodup := by
  induction ms with
  | nil => intro picked seen hp _ _; simpa [pass1] using hp
  | cons m ms ih =>
    intro picked seen hp hms hdisj
    simp only [pass1]
    split
    · exact hp
    · split
      · refine ih _ _ ?_ (List.Nodup.of_cons hms) ?_
        · simp only [List.nodup_append, List.nodup_cons, List.nodup_nil]
          exact ⟨hp, by simp, by
            intro a ha hb
            simp at hb
            subst hb
            exact hdisj a (by simp) ha⟩
        · intro x hx
          simp only [List.mem_append, List.mem_singleton]
          rintro (h1 | h2)
          · exact hdisj x (by simp [hx]) h1
          · subst h2
            exact (List.nodup_cons.mp hms).1 hx
      · exact ih _ _ hp (List.Nodup.of_cons hms) fun x hx => hdisj x (by simp [hx])

/-- Pass 2 keeps the pick list duplicate-free: a candidate already picked is
never pushed again (`!picked.includes(m)`). -/
theorem pass2_nodup (ms : List PMatch) :
    ∀ picked, picked.Nodup → (pass2 ms picked).Nodup := by
  induction ms with
  | nil => intro picked hp; simpa [pass2] using hp
  | cons m ms ih =>
    intro picked hp
    simp only [pass2]
    split
    · exact hp
    · split
      · exact ih _ hp
      · rename_i hlt hmem
        refine ih _ ?_
        simp only [List.nodup_append, List.nodup_cons, List.nodup_nil]
        exact ⟨hp, by simp, by
          intro a ha hb
          simp at hb
          subst hb
          exact hmem ha⟩

/-- If Pass 1 ends below the 8-candidate cap, it accepted every
empty-section candidate it saw. -/
theorem pass1_empty_mem (ms : List PMatch) :
    ∀ picked seen, ((pass1 ms picked seen).1).length < 8 →
      ∀ m ∈ ms, blockOf m = "" → m ∈ (pass1 ms picked seen).1 := by
  induction ms with
  | nil => intro picked seen _ m hm; simp at hm
  | cons m ms ih =>
    intro picked seen hlen m' hm' hblk
    by_cases h8 : 8 ≤ picked.length
    · rw [show pass1 (m :: ms) picked seen = (picked, seen) from by simp [pass1, h8]] at hlen ⊢
      simp only [] at hlen
      exact absurd hlen (by omega)
    · have hstep : pass1 (m :: ms) picked seen =
          if blockOf m = "" ∨ blockOf m ∉ seen then
            pass1 ms (picked ++ [m]) (if blockOf m = "" then seen else seen ++ [blockOf m])
          else pass1 ms picked seen := by
        simp [pass1, h8]
      by_cases hcond : blockOf m = "" ∨ blockOf m ∉ seen
      · rw [hstep, if_pos hcond] at hlen ⊢
        rcases List.mem_cons.mp hm' with h | h
        · subst h
          obtain ⟨e, he⟩ := pass1_extends ms (picked ++ [m'])
            (if blockOf m' = "" then seen else seen ++ [blockOf m'])
          rw [he]
          simp
        · exact ih _ _ hlen m' h hblk
      · rw [hstep, if_neg hcond] at hlen ⊢
        rcases List.mem_cons.mp hm' with h | h
        · subst h
          exact absurd (Or.inl hblk) hcond
        · exact ih _ _ hlen m' h hblk

/-- The Bool predicate selecting non-empty section labels. -/
def nonEmptyStr (b : String) : Bool := b ≠ ""

/-- Pass 1 invariant: non-empty section labels of the pick list stay
pairwise distinct, given that every non-empty label already picked is in
`seen`. -/
theorem pass1_blocks_nodup (ms : List PMatch) :
    ∀ picked seen,
      ((picked.map blockOf).filter nonEmptyStr).Nodup →
      (∀ b ∈ picked.map blockOf, b ≠ "" → b ∈ seen) →
      (((pass1 ms picked seen).1.map blockOf).filter nonEmptyStr).Nodup := by
  induction ms with
  | nil => intro picked seen h1 _; simpa [pass1] using h1
  | cons m ms ih =>
    intro picked seen h1 h2
    by_cases h8 : 8 ≤ picked.length
    · rw [show pass1 (m :: ms) picked seen = (picked, seen) from by simp [pass1, h8]]
      exact h1
    · have hstep : pass1 (m :: ms) picked seen =
          if blockOf m = "" ∨ blockOf m ∉ seen then
            pass1 ms (picked ++ [m]) (if blockOf m = "" then seen else seen ++ [blockOf m])
          else pass1 ms picked seen := by
        simp [pass1, h8]
      have hmapapp : (picked ++ [m]).map blockOf = picked.map blockOf ++ [blockOf m] := by
        simp
      by_cases hcond : blockOf m = "" ∨ blockOf m ∉ seen
      · rw [hstep, if_pos hcond]
        by_cases hblk : blockOf m = ""
        · rw [if_pos hblk]
          refine ih _ _ ?_ ?_
          · rw [hmapapp, List.filter_append, hblk,
              show List.filter nonEmptyStr [""] = [] from rfl, List.append_nil]
            exact h1
          · intro b hb hbne
            rw [hmapapp] at hb
            rcases List.mem_append.mp hb with h | h
            · exact h2 b h hbne
            · rw [List.mem_singleton] at h
              subst h
              exact absurd hblk hbne
        · rw [if_neg hblk]
          have hnotseen : blockOf m ∉ seen := hcond.resolve_left hblk
          refine ih _ _ ?_ ?_
          · rw [hmapapp, List.filter_append,
              show List.filter nonEmptyStr [blockOf m] = [blockOf m] from by
                simp [nonEmptyStr, hblk]]
            rw [List.nodup_append]
            refine ⟨h1, by simp, ?_⟩
            intro b hbmem hbm
            rw [List.mem_singleton] at hbm
            subst hbm
            exact hnotseen (h2 _ (List.mem_of_mem_filter hbmem) hblk)
          · intro b hb hbne
            rw [hmapapp] at hb
            rcases List.mem_append.mp hb with h | h
            · exact List.mem_append_left _ (h2 b h hbne)
            · rw [List.mem_singleton] at h
              subst h
              simp
      · rw [hstep, if_neg hcond]
        exact ih _ _ h1 h2

/-- C1 (amended): Pass 1, iterating in ranked order, accepts a candidate
exactly when its `sectionBlock` is empty or its non-empty `sectionBlock`
is not yet represented: the accepted non-empty section labels are pairwise
distinct, and — contrary to the original claim — every empty-`sectionBlock`
candidate is accepted in Pass 1 itself (whenever Pass 1 ends below the
8-candidate cap, all of them are in its output). -/
theorem pass1_diversity_and_empty_acceptance (chunkMatches : List PMatch) :
    ((((pass1 chunkMatches [] []).1.map blockOf).filter nonEmptyStr).Nodup) ∧
    (((pass1 chunkMatches [] []).1).length < 8 →
      ∀ m ∈ chunkMatches, blockOf m = "" → m ∈ (pass1 chunkMatches [] []).1) := by
  constructor
  · exact pass1_blocks_nodup chunkMatches [] [] (by simp) (by simp)
  · exact pass1_empty_mem chunkMatches [] []

/-- C1 counterexample: a candidate whose `sectionBlock` is empty is accepted
by Pass 1 (the original claim says every such candidate is skipped in
Pass 1 and can only enter in Pass 2). -/
theorem pass1_accepts_empty_section_cex :
    blockOf ⟨none, none, ⟨none, none, none, none, none, none, none, none⟩⟩ = "" ∧
    (pass1 [⟨none, none, ⟨none, none, none, none, none, none, none, none⟩⟩] [] []).1 =
      [⟨none, none, ⟨none, none, none, none, none, none, none, none⟩⟩] := by
  exact ⟨rfl, rfl⟩

/-- Witness for C1's amended theorem at a concrete candidate list. -/
theorem pass1_diversity_and_empty_acceptance_witness :
    ⟨none, none, ⟨none, none, none, none, none, none, none, none⟩⟩ ∈
      (pass1 [⟨none, none, ⟨none, none, none, none, none, none, none, none⟩⟩] [] []).1 := by
  exact (pass1_diversity_and_empty_acceptance
    [⟨none, none, ⟨none, none, none, none, none, none, none, none⟩⟩]).2 (by decide) _
    (by decide) (by decide)

/-- C8: the Passage Selector returns at most 8 candidates and, when the
candidate list holds pairwise-distinct objects (modelled: no duplicate list
entries), no candidate appears twice in its output even though Pass 2
re-iterates the full ranked list. -/
theorem pickDiverse_le_eight_and_nodup (chunkMatches : List PMatch) :
    (pickDiverse chunkMatches).length ≤ 8 ∧
    (chunkMatches.Nodup → (pickDiverse chunkMatches).Nodup) := by
  constructor
  · exact pass2_length_le _ _ (pass1_length_le _ _ _ (by simp))
  · intro hnd
    exact pass2_nodup _ _ (pass1_nodup _ _ _ (by simp) hnd (by simp))

/-- Witness for C8 at a concrete candidate list. -/
theorem pickDiverse_le_eight_and_nodup_witness :
    (pickDiverse [⟨some 2, none, ⟨some "A", none, none, none, some "bio", none, some "t", some "d1"⟩⟩,
      ⟨some 1, none, ⟨some "B", none, none, none, some "bio", none, some "u", some "d2"⟩⟩]).length ≤ 8 ∧
    (pickDiverse [⟨some 2, none, ⟨some "A", none, none, none, some "bio", none, some "t", some "d1"⟩⟩,
      ⟨some 1, none, ⟨some "B", none, none, none, some "bio", none, some "u", some "d2"⟩⟩]).Nodup := by
  refine ⟨(pickDiverse_le_eight_and_nodup _).1, (pickDiverse_le_eight_and_nodup _).2 ?_⟩
  decide

/-! ### Lemmas about the Context Assembler -/

/-- The record list is as long as the selected list. -/
theorem buildRecordsFrom_length (ms : List PMatch) :
    ∀ i, (buildRecordsFrom i ms).length = ms.length := by
  induction ms with
  | nil => intro i; rfl
  | cons m ms ih => intro i; simp [buildRecordsFrom, ih]

/-- The `j`-th record built from offset `i` renders the `j`-th match with
index `i + j`. -/
theorem buildRecordsFrom_get (ms : List PMatch) :
    ∀ i j, (buildRecordsFrom i ms).get? j = (ms.get? j).map (fun m => buildRecord m (i + j)) := by
  induction ms with
  | nil => intro i j; simp [buildRecordsFrom]
  | cons m ms ih =>
    intro i j
    cases j with
    | zero => simp [buildRecordsFrom]
    | succ j =>
      simp only [buildRecordsFrom, List.get?]
      rw [ih (i + 1) j]
      have harith : i + 1 + j = i + (j + 1) := by omega
      rw [harith]

/-- C9: both rendered outputs preserve `SelectedContext` order exactly —
the `i`-th record of the assembled context is the `i`-th selected candidate
rendered with number `i + 1` (the `[#i+1]` header), the `i`-th `ClientMatch`
is the client shape of the `i`-th selected candidate, and both outputs have
exactly one entry per selected candidate. -/
theorem context_and_client_preserve_order (picked : List PMatch) (i : Nat)
    (h : i < picked.length) :
    (buildContextRecords picked).get? i = some (buildRecord (picked.get ⟨i, h⟩) i) ∧
    (matchesToClient picked).get? i = some (toClient (picked.get ⟨i, h⟩)) ∧
    (buildContextRecords picked).length = picked.length ∧
    (matchesToClient picked).length = picked.length := by
  refine ⟨?_, ?_, buildRecordsFrom_length picked 0, by simp [matchesToClient]⟩
  · rw [buildContextRecords, buildRecordsFrom_get picked 0 i, List.get?_eq_get h]
    simp
  · rw [matchesToClient, List.get?_map, List.get?_eq_get h]
    rfl

/-- Witness for C9 at a concrete two-candidate selection. -/
theorem context_and_client_preserve_order_witness :
    (buildContextRecords
        [⟨some 2, none, ⟨some "A", none, none, none, some "bio", none, some "t", some "d1"⟩⟩,
          ⟨some 1, none, ⟨some "B", none, none, none, some "work", none, some "u", some "d2"⟩⟩]).get? 1 =
      some (buildRecord ⟨some 1, none, ⟨some "B", none, none, none, some "work", none, some "u", some "d2"⟩⟩ 1) ∧
    (matchesToClient
        [⟨some 2, none, ⟨some "A", none, none, none, some "bio", none, some "t", some "d1"⟩⟩,
          ⟨some 1, none, ⟨some "B", none, none, none, some "work", none, some "u", some "d2"⟩⟩]).get? 1 =
      some (toClient ⟨some 1, none, ⟨some "B", none, none, none, some "work", none, some "u", some "d2"⟩⟩) := by
  have h := context_and_client_preserve_order
    [⟨some 2, none, ⟨some "A", none, none, none, some "bio", none, some "t", some "d1"⟩⟩,
      ⟨some 1, none, ⟨some "B", none, none, none, some "work", none, some "u", some "d2"⟩⟩]
    1 (by decide)
  exact ⟨h.1, h.2.1⟩

/-! ### Lemmas about `shorten` -/

/-- Within the cap, `shorten` returns the cleaned text unchanged. -/
theorem shorten_of_le (t : String) (h : (cleanText t).length ≤ 220) :
    shorten t = cleanText t := by
  simp [shorten, h]

/-- Over the cap, `shorten` returns exactly 220 characters ending in
`"..."`. -/
theorem shorten_of_long (t : String) (h : 220 < (cleanText t).length) :
    (shorten t).length = 220 ∧ (shorten t).data.drop 217 = ['.', '.', '.'] := by
  have hne : ¬ (cleanText t).length ≤ 220 := not_le.mpr h
  have hdl : 220 < (cleanText t).data.length := h
  have htake : ((cleanText t).data.take 217).length = 217 := by
    rw [List.length_take]
    omega
  have hdata : (shorten t).data = (cleanText t).data.take 217 ++ ['.', '.', '.'] := by
    simp only [shorten, hne, if_false]
  constructor
  · show (shorten t).data.length = 220
    rw [hdata, List.length_append, htake]
    rfl
  · rw [hdata]
    set L := (cleanText t).data.take 217 with hL
    have hlen : L.length = 217 := by
      rw [hL, List.length_take]
      omega
    rw [show (217 : Nat) = L.length from hlen.symm, List.drop_left]

/-- `shorten` never exceeds the cap. -/
theorem shorten_length_le (t : String) : (shorten t).length ≤ 220 := by
  by_cases h : (cleanText t).length ≤ 220
  · rw [shorten_of_le t h]
    exact h
  · exact le_of_eq (shorten_of_long t (not_le.mp h)).1

/-- C10: the `ClientMatch` snippet is `shorten` of the match's passage
text: the whitespace-collapsed, trimmed text, returned unchanged when its
length is at most 220, and otherwise cut so the result is exactly 220
characters ending in `"..."`; its length never exceeds 220. -/
theorem snippet_shortened (m : PMatch) :
    (toClient m).snippet = shorten (jsOr m.metadata.text "") ∧
    (toClient m).snippet.length ≤ 220 ∧
    ((cleanText (jsOr m.metadata.text "")).length ≤ 220 →
      (toClient m).snippet = cleanText (jsOr m.metadata.text "")) ∧
    (220 < (cleanText (jsOr m.metadata.text "")).length →
      (toClient m).snippet.length = 220 ∧
      (toClient m).snippet.data.drop 217 = ['.', '.', '.']) := by
  refine ⟨rfl, ?_, ?_, ?_⟩
  · exact shorten_length_le _
  · intro h
    exact shorten_of_le _ h
  · intro h
    exact shorten_of_long _ h

/-! ### Lemmas about the Request Orchestrator -/

/-- The inbound validation predicate: `messages` is present and non-empty,
and its last element is a user turn with non-empty trimmed content. -/
def validRequest (body : Option (List ChatMsg)) : Prop :=
  ∃ messages last, body = some messages ∧ messages.getLast? = some last ∧
    last.role = Role.user ∧ jsTrim last.content ≠ ""

/-- A valid request runs the pipeline. -/
theorem post_eq_runPipeline (env : Env) (messages : List ChatMsg) (last : ChatMsg)
    (hlast : messages.getLast? = some last) (hrole : last.role = Role.user)
    (hne : jsTrim last.content ≠ "") :
    POST env (some messages) = runPipeline env messages := by
  have hnil : messages ≠ [] := by
    intro h
    rw [h] at hlast
    simp at hlast
  have hlen : ¬ messages.length = 0 := by
    simpa [List.length_eq_zero] using hnil
  simp only [POST, if_neg hlen, hlast]
  rw [if_neg]
  push_neg
  exact ⟨by simp [hrole], hne⟩

/-- `finishRequest` never touches the rewrite, embed or search trace. -/
theorem finishRequest_trace (env : Env) (q : String) (chunks : List PMatch) (t : Trace) :
    (finishRequest env q chunks t).2.rewriteCalls = t.rewriteCalls ∧
    (finishRequest env q chunks t).2.embedCalls = t.embedCalls ∧
    (finishRequest env q chunks t).2.searchCalls = t.searchCalls := by
  simp only [finishRequest]
  split
  · exact ⟨rfl, rfl, rfl⟩
  · split
    · exact ⟨rfl, rfl, rfl⟩
    · exact ⟨rfl, rfl, rfl⟩

/-- Every search call issued by Stage B and the broadening fallback carries
the Stage A vector. -/
theorem retrieveChunks_vector (env : Env) (v : List Int) (d : List String) :
    ∀ c ∈ (retrieveChunks env v d).2, c.vector = v := by
  simp only [retrieveChunks]
  split
  · intro c hc
    simp at hc
    rw [hc]
  · split
    · split
      · intro c hc
        rcases (by simpa using hc : c = ⟨v, 12, chunkFilterOf d⟩ ∨ c = ⟨v, 12, PFilter.chunkAll⟩)
          with h | h <;> rw [h]
      · intro c hc
        rcases (by simpa using hc : c = ⟨v, 12, chunkFilterOf d⟩ ∨ c = ⟨v, 12, PFilter.chunkAll⟩)
          with h | h <;> rw [h]
    · intro c hc
      simp at hc
      rw [hc]

/-- Once the rewrite succeeds, the embedder is called on the rewritten
query and only on it, whatever happens downstream. -/
theorem runPipeline_embedCalls (env : Env) (messages : List ChatMsg) (q : String)
    (hq : rewriteToStandalone env messages = .ok q) :
    (runPipeline env messages).2.embedCalls = [q] := by
  simp only [runPipeline, hq]
  cases henv : env.embed q with
  | error e => rfl
  | ok v =>
    dsimp only
    cases hs : env.search ⟨v, 3, PFilter.summary⟩ with
    | error e => rfl
    | ok sres =>
      dsimp only
      cases hr : (retrieveChunks env v (routedDocIds (sres.getD []))).1 with
      | error e => rfl
      | ok chunks =>
        dsimp only
        rw [(finishRequest_trace env q chunks _).2.1]

/-- C5: an inbound request whose `messages` is missing/empty or whose last
element is not a user turn with non-empty trimmed content is rejected with
a structured error and status 400, before any outbound call (rewrite,
embed, search, generate) is made. -/
theorem invalid_request_rejected (env : Env) (body : Option (List ChatMsg))
    (h : ¬ validRequest body) :
    ∃ msg, POST env body = (.error msg 400, ⟨0, [], [], []⟩) := by
  cases body with
  | none => exact ⟨_, rfl⟩
  | some messages =>
    by_cases hlen : messages.length = 0
    · refine ⟨"Missing or invalid \"messages\" array in body", ?_⟩
      simp only [POST, if_pos hlen]
      rfl
    · cases hlast : messages.getLast? with
      | none =>
        refine ⟨"The last message must be a user message with non-empty \"content\".", ?_⟩
        simp only [POST, if_neg hlen, hlast]
        rfl
      | some last =>
        have hcond : last.role ≠ Role.user ∨ jsTrim last.content = "" := by
          by_contra hc
          push_neg at hc
          exact h ⟨messages, last, rfl, hlast, hc.1, hc.2⟩
        refine ⟨"The last message must be a user message with non-empty \"content\".", ?_⟩
        simp only [POST, if_neg hlen, hlast, if_pos hcond]
        rfl

/-- A summary-kind match used in concrete witnesses. -/
def mSum : PMatch := ⟨some 9, none, ⟨none, none, none, none, none, none, none, some "doc1"⟩⟩

/-- A chunk-kind match used in concrete witnesses. -/
def mChunk : PMatch :=
  ⟨some 7, none, ⟨some "A", none, some "http://a", none, some "bio", none, some "text a", some "doc1"⟩⟩

/-- A fully successful environment used in concrete witnesses. -/
def envW : Env where
  rewriteLLM := fun _ => .ok (some "standalone question")
  embed := fun _ => .ok [1, 2]
  search := fun c => if c.filter = PFilter.summary then .ok (some [mSum]) else .ok (some [mChunk])
  genLLM := fun _ _ => .ok (some "An answer.")

/-- Witness for C5: the missing-`messages` request is rejected with status
400 and an empty trace. -/
theorem invalid_request_rejected_witness :
    ∃ msg, POST envW none = (.error msg 400, ⟨0, [], [], []⟩) :=
  invalid_request_rejected envW none (by simp [validRequest])

/-- Once rewrite and embedding succeed, every search call of the pipeline
carries the embedding vector, whatever happens downstream. -/
theorem runPipeline_vector (env : Env) (messages : List ChatMsg) (q : String) (v : List Int)
    (hq : rewriteToStandalone env messages = .ok q) (hv : env.embed q = .ok v) :
    ∀ c ∈ (runPipeline env messages).2.searchCalls, c.vector = v := by
  simp only [runPipeline, hq, hv]
  cases hs : env.search ⟨v, 3, PFilter.summary⟩ with
  | error e =>
    intro c hc
    have : c = ⟨v, 3, PFilter.summary⟩ := by simpa using hc
    rw [this]
  | ok sres =>
    dsimp only
    cases hr : (retrieveChunks env v (routedDocIds (sres.getD []))).1 with
    | error e =>
      intro c hc
      rcases List.mem_cons.mp (by simpa using hc) with h | h
      · rw [h]
      · exact retrieveChunks_vector env v _ c h
    | ok chunks =>
      dsimp only
      intro c hc
      rw [(finishRequest_trace env q chunks _).2.2] at hc
      rcases List.mem_cons.mp (by simpa using hc) with h | h
      · rw [h]
      · exact retrieveChunks_vector env v _ c h

/-- C7: on a validated request whose rewrite completed, the embedding call
is invoked exactly once — on the rewritten standalone query — and when it
yields a vector, that same vector is the one carried by the Stage A call,
the Stage B call, and (if fired) the broadening call. -/
theorem embed_once_same_vector (env : Env) (messages : List ChatMsg) (last : ChatMsg)
    (q : String) (hlast : messages.getLast? = some last) (hrole : last.role = Role.user)
    (hne : jsTrim last.content ≠ "") (hq : rewriteToStandalone env messages = .ok q) :
    (POST env (some messages)).2.embedCalls = [q] ∧
    (∀ v, env.embed q = .ok v →
      ∀ c ∈ (POST env (some messages)).2.searchCalls, c.vector = v) := by
  rw [post_eq_runPipeline env messages last hlast hrole hne]
  exact ⟨runPipeline_embedCalls env messages q hq,
    fun v hv => runPipeline_vector env messages q v hq hv⟩

/-- Witness for C7 on a concrete request against the witness environment. -/
theorem embed_once_same_vector_witness :
    (POST envW (some [⟨Role.user, "hi"⟩])).2.embedCalls = ["standalone question"] ∧
    (∀ c ∈ (POST envW (some [⟨Role.user, "hi"⟩])).2.searchCalls, c.vector = [1, 2]) := by
  have h := embed_once_same_vector envW [⟨Role.user, "hi"⟩] ⟨Role.user, "hi"⟩
    "standalone question" rfl rfl (by decide) rfl
  exact ⟨h.1, h.2 [1, 2] rfl⟩

/-- The search calls issued by Stage B / broadening, by cases on the
broadening condition. -/
theorem retrieveChunks_calls (env : Env) (v : List Int) (docIds : List String)
    (cres : Option (List PMatch))
    (hc : env.search ⟨v, 12, chunkFilterOf docIds⟩ = .ok cres) :
    (0 < docIds.length ∧ (cres.getD []).length < 3 →
      (retrieveChunks env v docIds).2 =
        [⟨v, 12, chunkFilterOf docIds⟩, ⟨v, 12, PFilter.chunkAll⟩]) ∧
    (¬ (0 < docIds.length ∧ (cres.getD []).length < 3) →
      (retrieveChunks env v docIds).2 = [⟨v, 12, chunkFilterOf docIds⟩]) := by
  constructor
  · intro h
    simp only [retrieveChunks, hc]
    rw [if_pos h]
    cases hb : env.search ⟨v, 12, PFilter.chunkAll⟩ with
    | error e => rfl
    | ok bres => rfl
  · intro h
    simp only [retrieveChunks, hc]
    rw [if_neg h]

/-- After successful rewrite, embedding and Stage A, the request's search
calls are the summary call followed by whatever Stage B / broadening
issued. -/
theorem runPipeline_searchCalls (env : Env) (messages : List ChatMsg) (q : String)
    (v : List Int) (sres : Option (List PMatch))
    (hq : rewriteToStandalone env messages = .ok q) (hv : env.embed q = .ok v)
    (hs : env.search ⟨v, 3, PFilter.summary⟩ = .ok sres) :
    (runPipeline env messages).2.searchCalls =
      ⟨v, 3, PFilter.summary⟩ :: (retrieveChunks env v (routedDocIds (sres.getD []))).2 := by
  simp only [runPipeline, hq, hv, hs]
  cases hr : (retrieveChunks env v (routedDocIds (sres.getD []))).1 with
  | error e => rfl
  | ok chunks =>
    dsimp only
    rw [(finishRequest_trace env q chunks _).2.2]
    rfl

/-- C4: given completed routing and scoped retrieval, the broadening
fallback fires iff routing produced at least one docId and scoped
retrieval returned fewer than 3 chunks: without it the request makes
exactly the 2 search calls, with it a third call re-runs chunk retrieval
at top-12 with the docId filter removed. -/
theorem broadening_fallback_iff (env : Env) (messages : List ChatMsg) (last : ChatMsg)
    (q : String) (v : List Int) (sres cres : Option (List PMatch))
    (docIds : List String) (scopedChunks : List PMatch)
    (hlast : messages.getLast? = some last) (hrole : last.role = Role.user)
    (hne : jsTrim last.content ≠ "") (hq : rewriteToStandalone env messages = .ok q)
    (hv : env.embed q = .ok v) (hs : env.search ⟨v, 3, PFilter.summary⟩ = .ok sres)
    (hdoc : docIds = routedDocIds (sres.getD []))
    (hc : env.search ⟨v, 12, chunkFilterOf docIds⟩ = .ok cres)
    (hscoped : scopedChunks = cres.getD []) :
    (docIds ≠ [] ∧ scopedChunks.length < 3 →
      (POST env (some messages)).2.searchCalls =
        [⟨v, 3, PFilter.summary⟩, ⟨v, 12, chunkFilterOf docIds⟩, ⟨v, 12, PFilter.chunkAll⟩]) ∧
    (¬ (docIds ≠ [] ∧ scopedChunks.length < 3) →
      (POST env (some messages)).2.searchCalls =
        [⟨v, 3, PFilter.summary⟩, ⟨v, 12, chunkFilterOf docIds⟩]) := by
  rw [post_eq_runPipeline env messages last hlast hrole hne,
    runPipeline_searchCalls env messages q v sres hq hv hs, ← hdoc]
  have hpos : docIds ≠ [] ↔ 0 < docIds.length := by
    rw [List.length_pos]
  constructor
  · intro h
    rw [(retrieveChunks_calls env v docIds cres hc).1 ⟨hpos.mp h.1, hscoped ▸ h.2⟩]
  · intro h
    rw [(retrieveChunks_calls env v docIds cres hc).2 ?_]
    intro hcontra
    exact h ⟨hpos.mpr hcontra.1, hscoped ▸ hcontra.2⟩

/-- Witness for C4: against the witness environment (one routed doc, one
scoped chunk) the broadening fallback fires and the third call is the
unfiltered top-12 chunk query. -/
theorem broadening_fallback_iff_witness :
    (POST envW (some [⟨Role.user, "hi"⟩])).2.searchCalls =
      [⟨[1, 2], 3, PFilter.summary⟩, ⟨[1, 2], 12, PFilter.chunkIn ["doc1"]⟩,
        ⟨[1, 2], 12, PFilter.chunkAll⟩] := by
  have h := broadening_fallback_iff envW [⟨Role.user, "hi"⟩] ⟨Role.user, "hi"⟩
    "standalone question" [1, 2] (some [mSum]) (some [mChunk]) ["doc1"] [mChunk]
    rfl rfl (by decide) rfl rfl rfl (by decide) rfl rfl
  have h3 := h.1 (by decide)
  simpa using h3

/-- C6: when zero chunk-kind candidates remain after Stage B and the
broadening fallback, the request returns a success response carrying the
fixed "no relevant information" answer and an empty match list, and no
generation call is made. -/
theorem empty_retrieval_success (env : Env) (messages : List ChatMsg) (last : ChatMsg)
    (q : String) (v : List Int) (sres : Option (List PMatch)) (calls : List QueryCall)
    (hlast : messages.getLast? = some last) (hrole : last.role = Role.user)
    (hne : jsTrim last.content ≠ "") (hq : rewriteToStandalone env messages = .ok q)
    (hv : env.embed q = .ok v) (hs : env.search ⟨v, 3, PFilter.summary⟩ = .ok sres)
    (hret : retrieveChunks env v (routedDocIds (sres.getD [])) = (.ok [], calls)) :
    POST env (some messages) =
      (.ok noInfoMessage [] q, ⟨1, [q], ⟨v, 3, PFilter.summary⟩ :: calls, []⟩) := by
  rw [post_eq_runPipeline env messages last hlast hrole hne]
  simp only [runPipeline, hq, hv, hs, hret]
  rfl

/-- An environment whose index finds nothing, for the C6 witness. -/
def envEmpty : Env where
  rewriteLLM := fun _ => .ok (some "q0")
  embed := fun _ => .ok [5]
  search := fun _ => .ok (some [])
  genLLM := fun _ _ => .ok (some "never")

/-- Witness for C6 on a concrete empty-index request. -/
theorem empty_retrieval_success_witness :
    POST envEmpty (some [⟨Role.user, "hi"⟩]) =
      (.ok noInfoMessage [] "q0",
        ⟨1, ["q0"], [⟨[5], 3, PFilter.summary⟩, ⟨[5], 12, PFilter.chunkAll⟩], []⟩) := by
  have h := empty_retrieval_success envEmpty [⟨Role.user, "hi"⟩] ⟨Role.user, "hi"⟩
    "q0" [5] (some []) [⟨[5], 12, PFilter.chunkAll⟩] rfl rfl (by decide) rfl rfl rfl rfl
  simpa using h

/-- An environment whose rewrite call throws, for the C2 counterexample. -/
def envRewriteErr : Env where
  rewriteLLM := fun _ => .error "rewrite down"
  embed := fun _ => .ok [1]
  search := fun _ => .ok (some [])
  genLLM := fun _ _ => .ok (some "a")

/-- C2 counterexample: a throwing rewrite call makes the whole request fail
with an error response — it is surfaced to the caller, not recovered by
the verbatim fallback as the original claim states. -/
theorem rewrite_error_fails_request_cex :
    POST envRewriteErr (some [⟨Role.user, "hi"⟩]) =
      (.error "rewrite down" 500, ⟨1, [], [], []⟩) := by
  decide

/-- C2 (amended): when the rewrite call *returns* empty or absent text, the
pipeline continues with the verbatim content of the last user turn (the
embedder is then invoked on it); but when the rewrite call *errors*, the
error propagates and the request fails with a status-500 error response. -/
theorem rewrite_empty_falls_back (env : Env) (messages : List ChatMsg) (last : ChatMsg)
    (c : Option String) (e : String)
    (hlast : messages.getLast? = some last) (hrole : last.role = Role.user)
    (hne : jsTrim last.content ≠ "") :
    (env.rewriteLLM (historyWindow messages) = .ok c → llmText c = "" →
      rewriteToStandalone env messages = .ok last.content ∧
      (POST env (some messages)).2.embedCalls = [last.content]) ∧
    (env.rewriteLLM (historyWindow messages) = .error e →
      POST env (some messages) = (.error e 500, ⟨1, [], [], []⟩)) := by
  constructor
  · intro h1 h2
    have hrw : rewriteToStandalone env messages = .ok last.content := by
      simp only [rewriteToStandalone, h1, h2, hlast]
      simp
    refine ⟨hrw, ?_⟩
    rw [post_eq_runPipeline env messages last hlast hrole hne]
    exact runPipeline_embedCalls env messages last.content hrw
  · intro h1
    rw [post_eq_runPipeline env messages last hlast hrole hne]
    simp only [runPipeline, rewriteToStandalone, h1]
    rfl

/-- An environment whose rewrite call returns whitespace only, for the C2
witness. -/
def envRewriteEmpty : Env where
  rewriteLLM := fun _ => .ok (some "   ")
  embed := fun _ => .ok [1]
  search := fun _ => .ok (some [])
  genLLM := fun _ _ => .ok (some "a")

/-- Witness for C2's amended theorem: the whitespace-only rewrite falls
back to the verbatim last user message. -/
theorem rewrite_empty_falls_back_witness :
    rewriteToStandalone envRewriteEmpty [⟨Role.user, "who"⟩] = .ok "who" ∧
    (POST envRewriteEmpty (some [⟨Role.user, "who"⟩])).2.embedCalls = ["who"] := by
  exact (rewrite_empty_falls_back envRewriteEmpty [⟨Role.user, "who"⟩] ⟨Role.user, "who"⟩
    (some "   ") "unused" rfl rfl (by decide)).1 rfl (by decide)

/-- An environment whose generation call returns empty text, for C3. -/
def envGenEmpty : Env where
  rewriteLLM := fun _ => .ok (some "q1")
  embed := fun _ => .ok [3]
  search := fun c => if c.topK = 3 then .ok (some []) else .ok (some [mChunk])
  genLLM := fun _ _ => .ok (some "")

/-- C3 counterexample: a generation call that returns empty text yields a
*success* response whose `answer` is the empty string — the Orchestrator
does not turn it into an error, contrary to the original claim. -/
theorem empty_generation_success_cex :
    (POST envGenEmpty (some [⟨Role.user, "hi"⟩])).1 =
      Response.ok "" (matchesToClient [mChunk]) "q1" := by
  decide

/-- C3 (amended): if the generation call *errors*, the Orchestrator fails
the request with a status-500 error response; but if the generation call
*returns* empty or absent text, the request succeeds with an empty answer
string (empty generated text is not treated as a failure). -/
theorem generation_error_vs_empty (env : Env) (messages : List ChatMsg) (last : ChatMsg)
    (q : String) (v : List Int) (sres : Option (List PMatch)) (chunks : List PMatch)
    (calls : List QueryCall) (e : String) (c : Option String)
    (hlast : messages.getLast? = some last) (hrole : last.role = Role.user)
    (hne : jsTrim last.content ≠ "") (hq : rewriteToStandalone env messages = .ok q)
    (hv : env.embed q = .ok v) (hs : env.search ⟨v, 3, PFilter.summary⟩ = .ok sres)
    (hret : retrieveChunks env v (routedDocIds (sres.getD [])) = (.ok chunks, calls))
    (hchunks : chunks ≠ []) :
    (env.genLLM q (buildContext (pickDiverse chunks)) = .error e →
      POST env (some messages) =
        (.error e 500,
          ⟨1, [q], ⟨v, 3, PFilter.summary⟩ :: calls,
            [(q, buildContext (pickDiverse chunks))]⟩)) ∧
    (env.genLLM q (buildContext (pickDiverse chunks)) = .ok c → llmText c = "" →
      POST env (some messages) =
        (.ok "" (matchesToClient (pickDiverse chunks)) q,
          ⟨1, [q], ⟨v, 3, PFilter.summary⟩ :: calls,
            [(q, buildContext (pickDiverse chunks))]⟩)) := by
  have hlen : ¬ chunks.length = 0 := by
    simpa [List.length_eq_zero] using hchunks
  have hpost : POST env (some messages) =
      finishRequest env q chunks ⟨1, [q], ⟨v, 3, PFilter.summary⟩ :: calls, []⟩ := by
    rw [post_eq_runPipeline env messages last hlast hrole hne]
    simp only [runPipeline, hq, hv, hs, hret]
    rfl
  rw [hpost]
  constructor
  · intro hg
    simp only [finishRequest, if_neg hlen, askLLM, hg]
    rfl
  · intro hg hempty
    simp only [finishRequest, if_neg hlen, askLLM, hg, hempty]
    rfl

/-- Witness for C3's amended theorem: the empty-text generation branch at a
concrete environment, yielding a success response with empty answer. -/
theorem generation_error_vs_empty_witness :
    POST envGenEmpty (some [⟨Role.user, "hi"⟩]) =
      (.ok "" (matchesToClient (pickDiverse [mChunk])) "q1",
        ⟨1, ["q1"], [⟨[3], 3, PFilter.summary⟩, ⟨[3], 12, PFilter.chunkAll⟩],
          [("q1", buildContext (pickDiverse [mChunk]))]⟩) := by
  have h := generation_error_vs_empty envGenEmpty [⟨Role.user, "hi"⟩] ⟨Role.user, "hi"⟩
    "q1" [3] (some []) [mChunk] [⟨[3], 12, PFilter.chunkAll⟩] "unused" (some "")
    rfl rfl (by decide) rfl rfl rfl rfl (by decide)
  simpa using h.2 rfl (by decide)

/-- A 230-character passage text, for the C10 witness. -/
def longText : String := ⟨List.replicate 230 'a'⟩

set_option maxRecDepth 4000 in
/-- Witness for C10: a match with a 230-character passage gets a snippet of
exactly 220 characters ending in `"..."`. -/
theorem snippet_shortened_witness :
    (toClient ⟨none, none, ⟨none, none, none, none, none, none, some longText, none⟩⟩).snippet.length = 220 ∧
    (toClient ⟨none, none, ⟨none, none, none, none, none, none, some longText, none⟩⟩).snippet.data.drop 217 =
      ['.', '.', '.'] := by
  exact (snippet_shortened
    ⟨none, none, ⟨none, none, none, none, none, none, some longText, none⟩⟩).2.2.2 (by decide)
